import Mathlib

/-!
Verification of the IconDiffBot pipeline (pr_icon_differ.py): a shallow
embedding of the webhook receiver, signature verifier, diff extractor,
content-fetch loop, image publisher and comment manager, together with
theorems about the properties the system is expected to satisfy.

External collaborators (the HMAC primitive, the GitHub HTTP API, the image
host, the pixel-comparison capability and the persistent cache) are modelled
as explicit parameters or explicit state, exactly where the Python code calls
out to them; the control flow around those calls is translated faithfully.
-/

/-! ## Signature verifier (compare_secret) -/

/-- The characters of the algorithm tag `sha1=` that GitHub prepends to the
hex digest in the `X-Hub-Signature` header. -/
def sha1Tag : List Char := ['s', 'h', 'a', '1', '=']

/-- Embedding of `secret_to_compare.replace('sha1=', '')`: removes every
occurrence of the five-character tag `sha1=` from the character list,
scanning left to right and not rescanning replaced text, as Python
`str.replace` does. -/
def stripSha1 : List Char → List Char
  | [] => []
  | 's' :: 'h' :: 'a' :: '1' :: '=' :: rest => stripSha1 rest
  | c :: rest => c :: stripSha1 rest

/-- Embedding of `compare_secret(secret_to_compare, payload)`.  The HMAC
primitive (`hmac.new(config.github_secret, payload, sha1).hexdigest()`) is an
external library call, so it is passed in as a function `hmacHex` from the
configured secret bytes and the payload bytes to the hex-digest characters.
`hmac.compare_digest` is a constant-time equality check, modelled as Boolean
list equality. -/
def compare_secret (hmacHex : List Nat → List Nat → List Char)
    (github_secret : List Nat) (secret_to_compare : Option (List Char))
    (payload : List Nat) : Bool :=
  match secret_to_compare with
  | none => false
  | some s => stripSha1 s == hmacHex github_secret payload

/-- The sixteen lowercase hex-digit characters that `hexdigest()` can emit. -/
def hexChars : List Char := "0123456789abcdef".toList

/-- A character list is a hex digest when every character is a hex digit. -/
def HexDigest (l : List Char) : Prop := ∀ c ∈ l, c ∈ hexChars

instance (l : List Char) : Decidable (HexDigest l) := by
  unfold HexDigest; infer_instance

/-- The characters of the string literal `corrupted`, used by the spec's
testable property as a suffix appended to a valid digest. -/
def corruptedTail : List Char := ['c', 'o', 'r', 'r', 'u', 'p', 't', 'e', 'd']

/-- A concrete stand-in for the HMAC hex-digest primitive, used to
instantiate the signature-verifier theorem at concrete inputs: the secret
`[0]` digests to `a`, every other secret digests to `b`. -/
def hmacHexSample : List Nat → List Nat → List Char :=
  fun s _ => if s = [0] then ['a'] else ['b']

/-! ## Diff extractor (binary_regex and check_diff) -/

/-- The literal part `diff --git a/` of `binary_regex`. -/
def gitDiffTag : List Char :=
  ['d', 'i', 'f', 'f', ' ', '-', '-', 'g', 'i', 't', ' ', 'a', '/']

/-- The tail of `gitDiffTag` after its first character, used to expose the
head/tail shape of a line that starts with the literal. -/
def gitTagTail : List Char :=
  ['i', 'f', 'f', ' ', '-', '-', 'g', 'i', 't', ' ', 'a', '/']

/-- The literal `.dmi` that the capture group of `binary_regex` must end
with. -/
def dmiSuffix : List Char := ['.', 'd', 'm', 'i']

/-- The literal ` b/` that must follow the capture group in
`binary_regex`. -/
def bSlashTag : List Char := [' ', 'b', '/']

/-- Greedy search for the capture group of `binary_regex` in the text `r`
that follows the literal `diff --git a/`: the engine's greedy `.*` finds the
largest `k ≤ bound` such that the first `k` characters end in `.dmi` and are
followed by ` b/`. Returns that group, or `none` when no `k` works. -/
def groupAt (r : List Char) : Nat → Option (List Char)
  | 0 => none
  | k + 1 =>
    if dmiSuffix.isSuffixOf (r.take (k + 1)) && bSlashTag.isPrefixOf (r.drop (k + 1)) then
      some (r.take (k + 1))
    else
      groupAt r k

/-- Matching of the literal `tag` at the front of `l`: when `tag` is a
prefix, returns the remaining text after it, else `none`. -/
def dropTag (tag l : List Char) : Option (List Char) :=
  if tag.isPrefixOf l then some (l.drop tag.length) else none

/-- Embedding of `binary_regex.search(line)` followed by `match.group(1)`:
Python `re.search` tries each start position left to right; at a position
where the literal `diff --git a/` matches, the greedy group is taken if it
exists, otherwise the scan continues from the next position. Total on every
line: no input raises. -/
def regexSearch : List Char → Option (List Char)
  | [] => none
  | c :: rest =>
    match dropTag gitDiffTag (c :: rest) with
    | some r =>
      match groupAt r r.length with
      | some g => some g
      | none => regexSearch rest
    | none => regexSearch rest

/-- Embedding of Python `text.split('\n')`: splits a character list at every
newline, keeping empty segments, so the empty text yields one empty line. -/
def splitNl : List Char → List (List Char)
  | [] => [[]]
  | c :: rest =>
    if c = '\n' then
      [] :: splitNl rest
    else
      match splitNl rest with
      | [] => [[c]]
      | h :: t => (c :: h) :: t

/-- Embedding of `check_diff(diff_url)`: the HTTP GET is externalised into
its observed status code and body text. A 404 returns `None`; any other
status scans every line of the body with `binary_regex` and collects the
captured groups in order. -/
def check_diff (status_code : Nat) (text : List Char) : Option (List (List Char)) :=
  if status_code = 404 then none
  else some ((splitNl text).filterMap regexSearch)

/-- Decides whether the pattern `pat` occurs as a contiguous run anywhere in
`l` (including at the very end). -/
def hasSub (pat : List Char) : List Char → Bool
  | [] => pat.isPrefixOf []
  | c :: rest => pat.isPrefixOf (c :: rest) || hasSub pat rest

/-! ## Image publisher (upload_image over the persistent cache) -/

/-- State of the persistent hash-to-URL cache (`database.DBCore`), extended
with a counter of how many times the upload API has been invoked. -/
structure UploadState where
  cache : List (String × String)
  uploads : Nat
deriving DecidableEq, Repr

/-- Embedding of `DB.get_url(img_hash)`: first cache entry for the hash. -/
def get_url (s : UploadState) (img_hash : String) : Option String :=
  (s.cache.find? (fun kv => kv.1 == img_hash)).map (fun kv => kv.2)

/-- Embedding of `upload_image(file_to_upload, img_hash, upload)`. The HTTP
upload is externalised: `server_url` is the URL the image host would return
(`req.json()['url']`), and performing the call bumps the `uploads` counter.
On a cache hit the cached URL is returned with no upload; on a miss the
upload happens once and `DB.set_url` records the URL under the hash. -/
def upload_image (upload : Bool) (img_hash server_url : String)
    (s : UploadState) : Option String × UploadState :=
  if upload = false then (none, s)
  else
    match get_url s img_hash with
    | some url => (some url, s)
    | none =>
        (some server_url,
         { cache := (img_hash, server_url) :: s.cache, uploads := s.uploads + 1 })

/-! ## Comment manager (check_comments and post_comment) -/

/-- A comment on the GitHub issue, as the comments-listing API presents it:
an author login, the comment's own API URL, and a body. -/
structure GhComment where
  author : String
  url : String
  body : String
deriving DecidableEq, Repr

/-- Embedding of `check_comments(api_url)`: the GET on the comments listing
is externalised into its status code and the list of comments it would
return. On a 200, the URL of the first comment whose author login equals the
configured bot user is returned; any other status returns `None`. -/
def check_comments (github_user : String) (listing_status : Nat)
    (comments : List GhComment) : Option String :=
  if listing_status = 200 then
    (comments.find? (fun c => c.author == github_user)).map (fun c => c.url)
  else
    none

/-- Embedding of `post_comment(issue_url, message_dict, base)` as a
transition on the issue's comment list. The remote effects are modelled from
the GitHub API semantics: PATCH on a comment's URL replaces that comment's
body, POST on the issue appends a new comment authored by the authenticated
bot user, with `new_url` the URL the server assigns to it. The body is
`'\n'.join(message_dict)`. -/
def post_comment (github_user new_url : String) (message_dict : List String)
    (listing_status : Nat) (comments : List GhComment) : List GhComment :=
  match check_comments github_user listing_status comments with
  | some comment_id =>
      comments.map (fun c =>
        if c.url == comment_id then
          { c with body := String.intercalate "\n" message_dict }
        else c)
  | none =>
      comments ++
        [{ author := github_user, url := new_url,
           body := String.intercalate "\n" message_dict }]

/-- Number of comments on the issue authored by the bot identity. -/
def botCount (github_user : String) (comments : List GhComment) : Nat :=
  (comments.filter (fun c => c.author == github_user)).length

/-! ## Diff orchestrator (the per-icon loop of check_icons) -/

/-- One entry of the mapping returned by the external
`icons.compare_two_icon_files` capability: a sub-image key, its status
string, and for each side whether an image is present together with its
content hash. -/
structure SubEntry where
  key : String
  status : String
  has_a : Bool
  hash_a : String
  has_b : Bool
  hash_b : String
deriving DecidableEq, Repr

/-- Everything the per-icon loop iteration of `check_icons` consumes for one
changed path: the path itself, the two raw-content statuses observed for the
base and head side, and what the compare capability would return. -/
structure IconInput where
  icon : String
  status_a : Nat
  status_b : Nat
  compare : List SubEntry
deriving DecidableEq, Repr

/-- Observable outcome of one iteration of the `check_icons` loop: whether
the compare capability was invoked, whether a scratch copy of either side is
still present when the iteration ends, and the report block (if any) that the
iteration appended to `msgs`. -/
structure IconResult where
  compare_called : Bool
  scratch_a : Bool
  scratch_b : Bool
  block : Option (List String)
deriving DecidableEq, Repr

/-- Embedding of one markdown table row
`"{key}|{url_a}|{url_b}|{status}"`: a present image is routed through the
image publisher (abstracted by `upl`, hash to URL) and rendered as an inline
image link; a missing side renders as the empty placeholder. -/
def entry_row (upl : String → String) (e : SubEntry) : String :=
  (e.key ++ "|" ++
    (if e.has_a then "![" ++ e.key ++ "](" ++ upl e.hash_a ++ ")" else "![]()") ++ "|" ++
    (if e.has_b then "![" ++ e.key ++ "](" ++ upl e.hash_b ++ ")" else "![]()") ++ "|" ++
    e.status)

/-- The `msg` list built for one icon: the collapsible-block header, the two
table-header lines, one row per non-Equal entry in iteration order, and the
closing tag. -/
def icon_msg (upl : String → String) (icon : String) (d : List SubEntry) : List String :=
  ("<details><summary>" ++ icon ++ "</summary>\n") ::
    "Key | Old | New | Status" ::
    "--- | --- | --- | ---" ::
    ((d.filter (fun e => !(e.status == "Equal"))).map (entry_row upl) ++ ["</details>"])

/-- Embedding of one iteration of the `for icon in icons_with_diff` loop of
`check_icons`, in its non-DEBUG configuration. A head-side 404 releases the
base scratch copy (`os.remove` in a try/except) and skips to the next path
before compare is called. Otherwise compare runs; a falsy (empty) result
skips the iteration early, leaving whatever scratch copies were written. A
non-empty result builds `msg` and appends it only when `len(msg) > 4`, i.e.
when at least one non-Equal row exists; the end-of-iteration cleanup then
removes both scratch copies. -/
def process_icon (upl : String → String) (inp : IconInput) : IconResult :=
  let wrote_a := inp.status_a == 200
  let wrote_b := inp.status_b == 200
  if inp.status_b == 404 then
    { compare_called := false, scratch_a := false, scratch_b := false, block := none }
  else if inp.compare.isEmpty then
    { compare_called := true, scratch_a := wrote_a, scratch_b := wrote_b, block := none }
  else
    let msg := icon_msg upl inp.icon inp.compare
    { compare_called := true, scratch_a := false, scratch_b := false,
      block := if msg.length > 4 then some msg else none }

/-- Embedding of `check_icons`: the `msgs` accumulator starts with the fixed
header line and collects every block the per-icon iterations append; the
returned Boolean records whether `post_comment` is called, which happens
exactly when `send_message` holds and `len(msgs) > 1`. -/
def check_icons (upl : String → String) (inputs : List IconInput)
    (send_message : Bool) : List String × Bool :=
  let msgs := "Icons with diff:" ::
    ((inputs.filterMap (fun i => (process_icon upl i).block)).map
      (fun m => String.intercalate "\n" m))
  (msgs, send_message && decide (msgs.length > 1))

/-! ## Webhook receiver (Handler.render_POST) -/

/-- The two pull-request actions the bot processes. -/
def actions_to_check : List String := ["opened", "synchronize"]

/-- The parts of an inbound POST that `render_POST` inspects: the two
headers (absent headers are `none`, as `getHeader` returns), the raw body
bytes, and the body's parsed fields used by the gates. -/
structure WebRequest where
  x_hub_signature : Option (List Char)
  x_github_event : Option String
  payload : List Nat
  action : String
  author_login : String
deriving Repr

/-- Observable outcome of one `render_POST` call: the response code and
body, whether the JSON body was parsed, whether the diff was fetched, and
whether the icon pipeline (`check_icons`) ran. -/
structure PostOutcome where
  code : Nat
  body : String
  parsed_body : Bool
  fetched_diff : Bool
  ran_pipeline : Bool
deriving DecidableEq, Repr

/-- Embedding of `Handler.render_POST` with its outbound calls
externalised: `hmacHex` is the HMAC primitive, `github_secret` and
`ignore_list` come from the configuration, and `diff_result` is what
`check_diff` would produce for the PR's diff URL. Gates run in source order:
signature (401), event type (404), action filter and ignored-author filter
(200 with a short body, nothing fetched), then the diff fetch; `check_icons`
runs only when the extracted list is truthy. -/
def render_POST (hmacHex : List Nat → List Nat → List Char)
    (github_secret : List Nat) (ignore_list : List String) (req : WebRequest)
    (diff_result : Option (List (List Char))) : PostOutcome :=
  if compare_secret hmacHex github_secret req.x_hub_signature req.payload = false then
    { code := 401, body := "Secret does not match.",
      parsed_body := false, fetched_diff := false, ran_pipeline := false }
  else if req.x_github_event != some "pull_request" then
    { code := 404, body := "Event not supported",
      parsed_body := false, fetched_diff := false, ran_pipeline := false }
  else if !(actions_to_check.contains req.action) then
    { code := 200, body := "Not actionable",
      parsed_body := true, fetched_diff := false, ran_pipeline := false }
  else if ignore_list.contains req.author_login.toLower then
    { code := 200, body := "Ok",
      parsed_body := true, fetched_diff := false, ran_pipeline := false }
  else
    { code := 200, body := "Ok", parsed_body := true, fetched_diff := true,
      ran_pipeline := match diff_result with
        | none => false
        | some l => !l.isEmpty }

lemma stripSha1_of_no_s {l : List Char} (h : ∀ c ∈ l, c ≠ 's') :
    stripSha1 l = l := by
  induction l with
  | nil => rfl
  | cons c rest ih =>
    have hc : c ≠ 's' := h c (by simp)
    rw [stripSha1.eq_def]
    split
    · rename_i heq
      exact absurd heq (by simp)
    · rename_i rest1 heq
      have hcs : c = 's' := by injection heq
      exact absurd hcs hc
    · rename_i cx cs hno heq
      injection heq with h1 h2
      subst h1
      subst h2
      rw [ih (fun x hx => h x (by simp [hx]))]

lemma hexDigest_no_s {l : List Char} (h : HexDigest l) : ∀ c ∈ l, c ≠ 's' := by
  intro c hc hs
  subst hs
  exact absurd (h _ hc) (by decide)

lemma stripSha1_tag_append {l : List Char} (h : ∀ c ∈ l, c ≠ 's') :
    stripSha1 (sha1Tag ++ l) = l := by
  have he : sha1Tag ++ l = 's' :: ('h' :: 'a' :: '1' :: '=' :: l) := by
    simp [sha1Tag]
  rw [he]
  show stripSha1 l = l
  exact stripSha1_of_no_s h

/-- C1: signature verification (`compare_secret`) returns true when the
presented header value is the algorithm-prefixed hex HMAC-SHA1 of the
payload `P` under the secret `S`; it returns false when the digest is
corrupted (a `corrupted` suffix appended), when the digest was produced
under a different secret (any secret whose digest differs), and when the
header is absent (`None`). -/
theorem compare_secret_correct
    (hmacHex : List Nat → List Nat → List Char) (S Swrong P : List Nat)
    (hhex : HexDigest (hmacHex S P)) (hhexW : HexDigest (hmacHex Swrong P))
    (hne : hmacHex Swrong P ≠ hmacHex S P) :
    compare_secret hmacHex S (some (sha1Tag ++ hmacHex S P)) P = true ∧
    compare_secret hmacHex S (some (sha1Tag ++ (hmacHex S P ++ corruptedTail))) P = false ∧
    compare_secret hmacHex S (some (sha1Tag ++ hmacHex Swrong P)) P = false ∧
    compare_secret hmacHex S none P = false := by
  refine ⟨?_, ?_, ?_, rfl⟩
  · simp only [compare_secret]
    rw [stripSha1_tag_append (hexDigest_no_s hhex)]
    simp
  · simp only [compare_secret]
    have hno : ∀ c ∈ hmacHex S P ++ corruptedTail, c ≠ 's' := by
      intro c hc hs
      subst hs
      rcases List.mem_append.1 hc with h | h
      · exact absurd (hhex _ h) (by decide)
      · exact absurd h (by decide)
    rw [stripSha1_tag_append hno]
    simp only [beq_eq_false_iff_ne, ne_eq]
    intro h
    have hlen := congrArg List.length h
    simp [corruptedTail] at hlen
  · simp only [compare_secret]
    rw [stripSha1_tag_append (hexDigest_no_s hhexW)]
    simp only [beq_eq_false_iff_ne, ne_eq]
    exact hne

/-- Witness for C1 at concrete inputs: the sample HMAC primitive, secret
`[0]`, wrong secret `[1]` and the empty payload. -/
theorem compare_secret_correct_witness :
    compare_secret hmacHexSample [0] (some (sha1Tag ++ hmacHexSample [0] [])) [] = true ∧
    compare_secret hmacHexSample [0]
      (some (sha1Tag ++ (hmacHexSample [0] [] ++ corruptedTail))) [] = false ∧
    compare_secret hmacHexSample [0] (some (sha1Tag ++ hmacHexSample [1] [])) [] = false ∧
    compare_secret hmacHexSample [0] none [] = false :=
  compare_secret_correct hmacHexSample [0] [1] [] (by decide) (by decide) (by decide)

lemma hasSub_drop {pat l : List Char} (h : hasSub pat l = false) :
    ∀ m, pat.isPrefixOf (l.drop m) = false := by
  induction l with
  | nil =>
    intro m
    simp only [hasSub] at h
    simpa [List.drop_nil] using h
  | cons c rest ih =>
    intro m
    simp only [hasSub, Bool.or_eq_false_iff] at h
    match m with
    | 0 => exact h.1
    | m + 1 => simpa using ih h.2 m

lemma dropTag_append (tag x : List Char) : dropTag tag (tag ++ x) = some x := by
  unfold dropTag
  rw [if_pos (by simp), List.drop_left]

lemma groupAt_finds (r p : List Char) (hpos : 0 < p.length)
    (htake : r.take p.length = p)
    (hsuf : dmiSuffix.isSuffixOf p = true)
    (hpre : bSlashTag.isPrefixOf (r.drop p.length) = true)
    (hnone : ∀ j, p.length < j → bSlashTag.isPrefixOf (r.drop j) = false) :
    ∀ k, p.length ≤ k → groupAt r k = some p := by
  intro k hk
  induction k, hk using Nat.le_induction with
  | base =>
    obtain ⟨m, hm⟩ : ∃ m, p.length = m + 1 := ⟨p.length - 1, by omega⟩
    rw [hm]
    simp only [groupAt]
    rw [← hm, htake, hsuf, hpre]
    simp
  | succ k hk ih =>
    have hfail : bSlashTag.isPrefixOf (r.drop (k + 1)) = false :=
      hnone (k + 1) (by omega)
    simp only [groupAt, hfail, Bool.and_false, Bool.false_eq_true, if_false]
    exact ih

lemma regexSearch_line (p q : List Char)
    (hp : dmiSuffix.isSuffixOf p = true)
    (hq : hasSub bSlashTag q = false) :
    regexSearch (gitDiffTag ++ (p ++ (bSlashTag ++ q))) = some p := by
  have hpos : 0 < p.length := by
    have hsuf := List.isSuffixOf_iff_suffix.mp hp
    have hlen := hsuf.length_le
    simp [dmiSuffix] at hlen
    omega
  have htake : (p ++ (bSlashTag ++ q)).take p.length = p := List.take_left p _
  have hdropP : (p ++ (bSlashTag ++ q)).drop p.length = bSlashTag ++ q :=
    List.drop_left p _
  have hpre : bSlashTag.isPrefixOf ((p ++ (bSlashTag ++ q)).drop p.length) = true := by
    rw [hdropP]
    simp
  have hcons : bSlashTag ++ q = ' ' :: 'b' :: '/' :: q := by simp [bSlashTag]
  have hnone : ∀ j, p.length < j →
      bSlashTag.isPrefixOf ((p ++ (bSlashTag ++ q)).drop j) = false := by
    intro j hj
    obtain ⟨m, rfl⟩ : ∃ m, j = p.length + (m + 1) := ⟨j - p.length - 1, by omega⟩
    have hstep : (p ++ (bSlashTag ++ q)).drop (p.length + (m + 1)) =
        (bSlashTag ++ q).drop (m + 1) := by
      rw [← List.drop_drop, hdropP]
    rw [hstep, hcons]
    match m with
    | 0 => simp [bSlashTag, List.isPrefixOf]
    | 1 => simp [bSlashTag, List.isPrefixOf]
    | m + 2 => simpa using hasSub_drop hq m
  have hg : groupAt (p ++ (bSlashTag ++ q)) (p ++ (bSlashTag ++ q)).length = some p :=
    groupAt_finds _ p hpos htake hp hpre hnone _ (by simp)
  have hshape : gitDiffTag ++ (p ++ (bSlashTag ++ q)) =
      'd' :: (gitTagTail ++ (p ++ (bSlashTag ++ q))) := by
    simp [gitDiffTag, gitTagTail]
  rw [hshape]
  simp only [regexSearch]
  rw [← hshape, dropTag_append]
  simp only [hg]

/-- C4: on an available (non-404) diff, extraction returns exactly the
`a/`-side path of each line formed as `diff --git a/<path> b/<rest>` where
the path ends in `.dmi` (greedy capture, so the rest must not contain a
further ` b/` for the capture to be that path), in appearance order with
duplicates preserved; the single line
`diff --git a/icons/test.dmi b/icons/test.dmi` yields exactly
`[icons/test.dmi]`, text with no matching lines yields the empty list, and
extraction is a total function, so no line raises. -/
theorem check_diff_extraction (p q : List Char)
    (hp : dmiSuffix.isSuffixOf p = true)
    (hq : hasSub bSlashTag q = false) :
    regexSearch (gitDiffTag ++ (p ++ (bSlashTag ++ q))) = some p ∧
    check_diff 200 ("diff --git a/icons/test.dmi b/icons/test.dmi".toList) =
      some ["icons/test.dmi".toList] ∧
    check_diff 200 ("unrelated line\nanother line".toList) = some [] ∧
    check_diff 200
        ("diff --git a/icons/x.dmi b/icons/x.dmi\ndiff --git a/icons/x.dmi b/icons/x.dmi".toList) =
      some ["icons/x.dmi".toList, "icons/x.dmi".toList] :=
  ⟨regexSearch_line p q hp hq, by decide, by decide, by decide⟩

/-- Witness for C4 with the path and right-hand side of the spec's example
line. -/
theorem check_diff_extraction_witness :
    regexSearch (gitDiffTag ++ ("icons/test.dmi".toList ++
        (bSlashTag ++ "icons/test.dmi".toList))) = some ("icons/test.dmi".toList) ∧
    check_diff 200 ("diff --git a/icons/test.dmi b/icons/test.dmi".toList) =
      some ["icons/test.dmi".toList] ∧
    check_diff 200 ("unrelated line\nanother line".toList) = some [] ∧
    check_diff 200
        ("diff --git a/icons/x.dmi b/icons/x.dmi\ndiff --git a/icons/x.dmi b/icons/x.dmi".toList) =
      some ["icons/x.dmi".toList, "icons/x.dmi".toList] :=
  check_diff_extraction "icons/test.dmi".toList "icons/test.dmi".toList
    (by decide) (by decide)

/-- C9: `check_diff` returns the unavailable sentinel (`None`) exactly when
the diff GET returns status 404; for every other status, including server
errors such as 500, the response body text is scanned for sprite paths as if
it were a retrieved diff. -/
theorem check_diff_none_iff_404 (status : Nat) (text : List Char) :
    (check_diff status text = none ↔ status = 404) ∧
    (status ≠ 404 →
      check_diff status text = some ((splitNl text).filterMap regexSearch)) ∧
    check_diff 500 ("diff --git a/icons/test.dmi b/icons/test.dmi".toList) =
      some ["icons/test.dmi".toList] := by
  refine ⟨?_, ?_, by decide⟩
  · unfold check_diff
    by_cases h : status = 404 <;> simp [h]
  · intro h
    unfold check_diff
    simp [h]

/-- Witness for C9: a 500 response is scanned like a retrieved diff. -/
theorem check_diff_none_iff_404_witness :
    check_diff 500 ("diff --git a/icons/test.dmi b/icons/test.dmi".toList) =
      some ((splitNl ("diff --git a/icons/test.dmi b/icons/test.dmi".toList)).filterMap
        regexSearch) :=
  (check_diff_none_iff_404 500
    ("diff --git a/icons/test.dmi b/icons/test.dmi".toList)).2.1 (by decide)

/-- C3: the image publisher invokes the upload capability at most once per
content hash: a cache hit returns the cached URL with no upload call and no
state change; a miss performs exactly one upload and stores the returned URL
under that hash, so a second call with the same hash (a second sub-image
with identical content) is a hit resolving to the same URL with no further
upload. -/
theorem upload_image_dedup (img_hash url u2 cached : String) (s : UploadState) :
    (get_url s img_hash = some cached →
      upload_image true img_hash url s = (some cached, s)) ∧
    (get_url s img_hash = none →
      (upload_image true img_hash url s).1 = some url ∧
      (upload_image true img_hash url s).2.uploads = s.uploads + 1 ∧
      get_url (upload_image true img_hash url s).2 img_hash = some url ∧
      upload_image true img_hash u2 (upload_image true img_hash url s).2 =
        (some url, (upload_image true img_hash url s).2)) := by
  constructor
  · intro h
    simp [upload_image, h]
  · intro h
    have hstate : (upload_image true img_hash url s).2 =
        { cache := (img_hash, url) :: s.cache, uploads := s.uploads + 1 } := by
      simp [upload_image, h]
    have hget : get_url
        { cache := (img_hash, url) :: s.cache, uploads := s.uploads + 1 : UploadState }
        img_hash = some url := by
      simp [get_url]
    refine ⟨by simp [upload_image, h], by rw [hstate], by rw [hstate]; exact hget, ?_⟩
    rw [hstate]
    simp [upload_image, hget]

/-- Witness for C3 starting from the empty cache. -/
theorem upload_image_dedup_witness :
    (upload_image true "h" "u" ⟨[], 0⟩).1 = some "u" ∧
    (upload_image true "h" "u" ⟨[], 0⟩).2.uploads = 0 + 1 ∧
    get_url (upload_image true "h" "u" ⟨[], 0⟩).2 "h" = some "u" ∧
    upload_image true "h" "v" (upload_image true "h" "u" ⟨[], 0⟩).2 =
      (some "u", (upload_image true "h" "u" ⟨[], 0⟩).2) :=
  (upload_image_dedup "h" "u" "v" "c" ⟨[], 0⟩).2 rfl

/-- C10: when the comments-listing GET returns any status other than 200,
`check_comments` returns `None` even when a bot-authored comment exists, so
`post_comment` takes the insert path and appends a new comment; on an issue
that already holds one bot-authored comment this produces a second one. -/
theorem check_comments_non200 (user u0 b0 u1 : String) (m : List String)
    (status : Nat) (comments : List GhComment) (h : status ≠ 200) :
    check_comments user status comments = none ∧
    post_comment user u1 m status comments =
      comments ++
        [{ author := user, url := u1, body := String.intercalate "\n" m }] ∧
    botCount user (post_comment user u1 m status
      [{ author := user, url := u0, body := b0 }]) = 2 := by
  have hc : ∀ cs : List GhComment, check_comments user status cs = none := by
    intro cs
    simp [check_comments, h]
  refine ⟨hc comments, ?_, ?_⟩
  · simp [post_comment, hc]
  · simp [post_comment, hc, botCount]

/-- Witness for C10: a 500 on the listing turns the upsert into a blind
insert that duplicates the bot's comment. -/
theorem check_comments_non200_witness :
    check_comments "bot" 500 [] = none ∧
    post_comment "bot" "u1" ["x"] 500 [] =
      [] ++ [{ author := "bot", url := "u1", body := String.intercalate "\n" ["x"] }] ∧
    botCount "bot" (post_comment "bot" "u1" ["x"] 500
      [{ author := "bot", url := "u0", body := "b0" }]) = 2 :=
  check_comments_non200 "bot" "u0" "b0" "u1" ["x"] 500 [] (by decide)

lemma botCount_cons (user : String) (x : GhComment) (xs : List GhComment) :
    botCount user (x :: xs) =
      (if x.author == user then 1 else 0) + botCount user xs := by
  unfold botCount
  rw [List.filter_cons]
  by_cases h : x.author == user <;> simp [h, Nat.add_comm]

lemma botCount_map (user : String) (f : GhComment → GhComment)
    (hf : ∀ c, (f c).author = c.author) (comments : List GhComment) :
    botCount user (comments.map f) = botCount user comments := by
  induction comments with
  | nil => rfl
  | cons c rest ih =>
    rw [List.map_cons, botCount_cons, botCount_cons, hf, ih]

lemma find?_author_map (user : String) (f : GhComment → GhComment)
    (hf : ∀ c, (f c).author = c.author) (comments : List GhComment) :
    (comments.map f).find? (fun c => c.author == user) =
      (comments.find? (fun c => c.author == user)).map f := by
  induction comments with
  | nil => rfl
  | cons c rest ih =>
    rcases hb : (c.author == user) with _ | _
    · have hfb : ((f c).author == user) = false := by rw [hf]; exact hb
      simp only [List.map_cons, List.find?_cons, hfb, hb]
      exact ih
    · have hfb : ((f c).author == user) = true := by rw [hf]; exact hb
      simp only [List.map_cons, List.find?_cons, hfb, hb]
      rfl

lemma find?_append_left_none {p : GhComment → Bool} {l₁ : List GhComment}
    (h : l₁.find? p = none) (l₂ : List GhComment) :
    (l₁ ++ l₂).find? p = l₂.find? p := by
  induction l₁ with
  | nil => rfl
  | cons c rest ih =>
    rw [List.find?_cons] at h
    rcases hpc : p c with _ | _
    · rw [hpc] at h
      rw [List.cons_append, List.find?_cons_of_neg _ (by simp [hpc])]
      exact ih h
    · rw [hpc] at h
      exact absurd h (by simp)

lemma botCount_of_find?_none {user : String} {comments : List GhComment}
    (h : comments.find? (fun c => c.author == user) = none) :
    botCount user comments = 0 := by
  induction comments with
  | nil => rfl
  | cons c rest ih =>
    rw [List.find?_cons] at h
    rcases hpc : (c.author == user) with _ | _
    · rw [hpc] at h
      rw [botCount_cons, hpc, ih h]
      simp
    · rw [hpc] at h
      exact absurd h (by simp)

lemma botCount_append (user : String) (l₁ l₂ : List GhComment) :
    botCount user (l₁ ++ l₂) = botCount user l₁ + botCount user l₂ := by
  unfold botCount
  rw [List.filter_append, List.length_append]

lemma post_comment_update_eq {user : String} (new_url : String)
    (m : List String) {comments : List GhComment} {c : GhComment}
    (hfind : comments.find? (fun x => x.author == user) = some c) :
    post_comment user new_url m 200 comments =
      comments.map (fun x =>
        if x.url == c.url then { x with body := String.intercalate "\n" m }
        else x) := by
  unfold post_comment check_comments
  simp [hfind]

lemma post_comment_insert_eq {user : String} (new_url : String)
    (m : List String) {comments : List GhComment}
    (hfind : comments.find? (fun x => x.author == user) = none) :
    post_comment user new_url m 200 comments =
      comments ++
        [{ author := user, url := new_url,
           body := String.intercalate "\n" m }] := by
  unfold post_comment check_comments
  simp [hfind]

lemma post_comment_update_facts {user : String} (u : String) (m : List String)
    {comments : List GhComment} {c : GhComment}
    (hfind : comments.find? (fun x => x.author == user) = some c) :
    botCount user (post_comment user u m 200 comments) = botCount user comments ∧
    (post_comment user u m 200 comments).length = comments.length ∧
    check_comments user 200 (post_comment user u m 200 comments) = some c.url := by
  have hs := post_comment_update_eq u m hfind
  have hfa : ∀ x : GhComment,
      ((fun x => if x.url == c.url then
          { x with body := String.intercalate "\n" m } else x) x).author = x.author := by
    intro x
    by_cases hx : (x.url == c.url) = true <;> simp [hx]
  refine ⟨?_, ?_, ?_⟩
  · rw [hs, botCount_map user _ hfa]
  · rw [hs, List.length_map]
  · unfold check_comments
    rw [if_pos rfl, hs, find?_author_map user _ hfa, hfind]
    simp

lemma post_comment_insert_facts {user : String} (u : String) (m : List String)
    {comments : List GhComment}
    (hfind : comments.find? (fun x => x.author == user) = none) :
    botCount user (post_comment user u m 200 comments) = 1 ∧
    (post_comment user u m 200 comments).length = comments.length + 1 ∧
    check_comments user 200 (post_comment user u m 200 comments) = some u := by
  have hs := post_comment_insert_eq u m hfind
  refine ⟨?_, ?_, ?_⟩
  · rw [hs, botCount_append, botCount_of_find?_none hfind, botCount_cons]
    simp [botCount]
  · rw [hs, List.length_append]
    simp
  · unfold check_comments
    rw [if_pos rfl, hs, find?_append_left_none hfind]
    simp [List.find?_cons]

lemma check_comments_some_find? {user : String} {comments : List GhComment}
    {u : String} (h : check_comments user 200 comments = some u) :
    ∃ c1, comments.find? (fun x => x.author == user) = some c1 := by
  unfold check_comments at h
  rw [if_pos rfl] at h
  rcases hx : comments.find? (fun x => x.author == user) with _ | c1
  · rw [hx] at h
    simp at h
  · exact ⟨c1, hx⟩

/-- C2: the comment upsert is idempotent in shape. Starting from an issue
with at most one bot-authored comment and a listing API that answers 200,
two successive `post_comment` invocations leave at most one bot-authored
comment; the second invocation always takes the update path (the comment
list's length does not change between the first and second call); and when a
bot comment already exists, the first call updates it in place (length
unchanged) and the second call again targets that same comment's URL. -/
theorem post_comment_upsert (user u1 u2 : String) (m1 m2 : List String)
    (comments : List GhComment) (h : botCount user comments ≤ 1) :
    botCount user (post_comment user u1 m1 200 comments) ≤ 1 ∧
    botCount user (post_comment user u2 m2 200
      (post_comment user u1 m1 200 comments)) ≤ 1 ∧
    (post_comment user u2 m2 200 (post_comment user u1 m1 200 comments)).length =
      (post_comment user u1 m1 200 comments).length ∧
    (∀ c, comments.find? (fun x => x.author == user) = some c →
      (post_comment user u1 m1 200 comments).length = comments.length ∧
      check_comments user 200 (post_comment user u1 m1 200 comments) =
        some c.url) := by
  rcases hfind : comments.find? (fun x => x.author == user) with _ | c0
  · obtain ⟨hc1, hl1, hcc1⟩ := post_comment_insert_facts u1 m1 hfind
    obtain ⟨c1, hc1find⟩ := check_comments_some_find? hcc1
    obtain ⟨hc2, hl2, _⟩ := post_comment_update_facts u2 m2 hc1find
    refine ⟨by rw [hc1], by rw [hc2, hc1], hl2, ?_⟩
    intro c hcontra
    rw [hfind] at hcontra
    exact absurd hcontra (by simp)
  · obtain ⟨hc1, hl1, hcc1⟩ := post_comment_update_facts u1 m1 hfind
    obtain ⟨c1, hc1find⟩ := check_comments_some_find? hcc1
    obtain ⟨hc2, hl2, _⟩ := post_comment_update_facts u2 m2 hc1find
    refine ⟨by rw [hc1]; exact h, by rw [hc2, hc1]; exact h, hl2, ?_⟩
    intro c hc
    rw [hfind] at hc
    obtain rfl : c0 = c := by injection hc
    exact ⟨hl1, hcc1⟩

/-- Witness for C2 on an issue that already holds exactly one bot-authored
comment. -/
theorem post_comment_upsert_witness :
    botCount "bot" (post_comment "bot" "u1" ["a"] 200
      [{ author := "bot", url := "u0", body := "b0" }]) ≤ 1 ∧
    botCount "bot" (post_comment "bot" "u2" ["b"] 200 (post_comment "bot" "u1" ["a"] 200
      [{ author := "bot", url := "u0", body := "b0" }])) ≤ 1 ∧
    (post_comment "bot" "u2" ["b"] 200 (post_comment "bot" "u1" ["a"] 200
      [{ author := "bot", url := "u0", body := "b0" }])).length =
      (post_comment "bot" "u1" ["a"] 200
        [{ author := "bot", url := "u0", body := "b0" }]).length ∧
    (post_comment "bot" "u1" ["a"] 200
      [{ author := "bot", url := "u0", body := "b0" }]).length =
      ([{ author := "bot", url := "u0", body := "b0" }] : List GhComment).length ∧
    check_comments "bot" 200 (post_comment "bot" "u1" ["a"] 200
      [{ author := "bot", url := "u0", body := "b0" }]) =
      some ({ author := "bot", url := "u0", body := "b0" } : GhComment).url := by
  have w := post_comment_upsert "bot" "u1" "u2" ["a"] ["b"]
    [{ author := "bot", url := "u0", body := "b0" }] (by decide)
  have w4 := w.2.2.2 { author := "bot", url := "u0", body := "b0" } (by decide)
  exact ⟨w.1, w.2.1, w.2.2.1, w4.1, w4.2⟩

/-- Counterexample to C5: a base-side fetch status of 500 (neither 200 nor
404) does not skip the path; with the head side at 200, the per-icon
iteration still reaches the compare call, contradicting the claim that such
a path sees no compare call. -/
theorem process_icon_error_counterexample :
    (process_icon id
      { icon := "icons/x.dmi", status_a := 500, status_b := 200,
        compare := [{ key := "k", status := "Changed", has_a := true,
                      hash_a := "ha", has_b := true, hash_b := "hb" }] }).compare_called =
      true := rfl

/-- C5 amended: a fetch status other than 200 or 404 does not cause the path
to be skipped and produces no warning branch; the compare call happens for
every path whose head-side status is not 404, regardless of the base-side
status, and only a head-side 404 skips a path. The loop does continue with
the remaining paths: every path after the current one is still processed
into the report. -/
theorem process_icon_no_error_skip (upl : String → String) (inp : IconInput)
    (rest : List IconInput) :
    (process_icon upl inp).compare_called = !(inp.status_b == 404) ∧
    (inp :: rest).filterMap (fun i => (process_icon upl i).block) =
      ((process_icon upl inp).block).toList ++
        rest.filterMap (fun i => (process_icon upl i).block) := by
  constructor
  · by_cases h : (inp.status_b == 404) = true
    · simp [process_icon, h]
    · rw [Bool.not_eq_true] at h
      by_cases h2 : inp.compare.isEmpty <;> simp [process_icon, h, h2]
  · rw [List.filterMap_cons]
    cases (process_icon upl inp).block <;> simp

/-- C6: for a path whose head-side fetch returns 404, the per-icon
iteration makes no compare call, contributes no report block, and ends with
no scratch copy of either side (the base-side scratch copy staged before the
short-circuit is released by the `os.remove` in that branch). -/
theorem process_icon_head_404 (upl : String → String) (inp : IconInput)
    (h : inp.status_b = 404) :
    (process_icon upl inp).compare_called = false ∧
    (process_icon upl inp).block = none ∧
    (process_icon upl inp).scratch_a = false ∧
    (process_icon upl inp).scratch_b = false := by
  simp [process_icon, h]

/-- Witness for C6: a deleted icon (base 200, head 404). -/
theorem process_icon_head_404_witness :
    (process_icon id
      { icon := "icons/x.dmi", status_a := 200, status_b := 404,
        compare := [] }).compare_called = false ∧
    (process_icon id
      { icon := "icons/x.dmi", status_a := 200, status_b := 404,
        compare := [] }).block = none ∧
    (process_icon id
      { icon := "icons/x.dmi", status_a := 200, status_b := 404,
        compare := [] }).scratch_a = false ∧
    (process_icon id
      { icon := "icons/x.dmi", status_a := 200, status_b := 404,
        compare := [] }).scratch_b = false :=
  process_icon_head_404 id
    { icon := "icons/x.dmi", status_a := 200, status_b := 404, compare := [] } rfl

/-- C7: Equal entries never appear in the rendered report (a block, when
produced, is exactly the header lines plus one row per non-Equal entry plus
the closing tag); a path whose compare result has zero non-Equal entries
contributes no block; and when every entry of every changed path is Equal,
the aggregate holds only the fixed header line and no comment call is
made. -/
theorem check_icons_equal_suppressed (upl : String → String)
    (inputs : List IconInput) (send : Bool) :
    (∀ inp : IconInput,
      inp.compare.filter (fun e => !(e.status == "Equal")) = [] →
      (process_icon upl inp).block = none) ∧
    (∀ inp : IconInput, ∀ msg,
      (process_icon upl inp).block = some msg →
      msg = icon_msg upl inp.icon inp.compare ∧
      inp.compare.filter (fun e => !(e.status == "Equal")) ≠ []) ∧
    ((∀ inp ∈ inputs, ∀ e ∈ inp.compare, e.status = "Equal") →
      check_icons upl inputs send = (["Icons with diff:"], false)) := by
  have hblock_none : ∀ inp : IconInput,
      inp.compare.filter (fun e => !(e.status == "Equal")) = [] →
      (process_icon upl inp).block = none := by
    intro inp hfil
    unfold process_icon
    by_cases h4 : (inp.status_b == 404) = true
    · simp [h4]
    · rw [Bool.not_eq_true] at h4
      by_cases hemp : inp.compare.isEmpty = true
      · simp [h4, hemp]
      · have hlen : (icon_msg upl inp.icon inp.compare).length = 4 := by
          unfold icon_msg
          rw [hfil]
          simp
        simp [h4, hemp, hlen]
  refine ⟨hblock_none, ?_, ?_⟩
  · intro inp msg hmsg
    unfold process_icon at hmsg
    by_cases h4 : (inp.status_b == 404) = true
    · simp [h4] at hmsg
    · rw [Bool.not_eq_true] at h4
      by_cases hemp : inp.compare.isEmpty = true
      · simp [h4, hemp] at hmsg
      · simp only [h4, hemp, Bool.false_eq_true, if_false] at hmsg
        by_cases hlen : (icon_msg upl inp.icon inp.compare).length > 4
        · rw [if_pos hlen] at hmsg
          refine ⟨(Option.some_inj.mp hmsg).symm, ?_⟩
          intro hfil
          unfold icon_msg at hlen
          rw [hfil] at hlen
          simp at hlen
        · rw [if_neg hlen] at hmsg
          exact absurd hmsg (by simp)
  · intro hall
    have hblocks : inputs.filterMap (fun i => (process_icon upl i).block) = [] := by
      rw [List.filterMap_eq_nil_iff]
      intro inp hin
      have hfil : inp.compare.filter (fun e => !(e.status == "Equal")) = [] := by
        rw [List.filter_eq_nil_iff]
        intro e he
        simp [hall inp hin e he]
      simp [hblock_none inp hfil]
    unfold check_icons
    rw [hblocks]
    simp

/-- Witness for C7: one changed path whose compare result is a single Equal
entry produces the bare header and no comment call. -/
theorem check_icons_equal_suppressed_witness :
    check_icons id
      [{ icon := "icons/x.dmi", status_a := 200, status_b := 200,
         compare := [{ key := "k", status := "Equal", has_a := true,
                       hash_a := "a", has_b := true, hash_b := "b" }] }] true =
      (["Icons with diff:"], false) :=
  (check_icons_equal_suppressed id
    [{ icon := "icons/x.dmi", status_a := 200, status_b := 200,
       compare := [{ key := "k", status := "Equal", has_a := true,
                     hash_a := "a", has_b := true, hash_b := "b" }] }] true).2.2
    (by decide)

/-- C8: every inbound POST produces exactly one response, determined by the
gate order of `render_POST`: a bad or absent signature yields 401 with no
body parsing, no diff fetch and no pipeline run; a verified request whose
event header is not `pull_request` yields 404 with no body parsing; a
recognized pull-request event whose action is outside the checked set, or
whose author's lowercase login is in the ignore list, yields 200 with a
short plain-text body and no diff fetch; every remaining case yields 200. -/
theorem render_POST_gates (hmacHex : List Nat → List Nat → List Char)
    (github_secret : List Nat) (ignore_list : List String) (req : WebRequest)
    (diff_result : Option (List (List Char))) :
    (compare_secret hmacHex github_secret req.x_hub_signature req.payload = false →
      render_POST hmacHex github_secret ignore_list req diff_result =
        { code := 401, body := "Secret does not match.", parsed_body := false,
          fetched_diff := false, ran_pipeline := false }) ∧
    (compare_secret hmacHex github_secret req.x_hub_signature req.payload = true →
      req.x_github_event ≠ some "pull_request" →
      render_POST hmacHex github_secret ignore_list req diff_result =
        { code := 404, body := "Event not supported", parsed_body := false,
          fetched_diff := false, ran_pipeline := false }) ∧
    (compare_secret hmacHex github_secret req.x_hub_signature req.payload = true →
      req.x_github_event = some "pull_request" →
      (actions_to_check.contains req.action = false ∨
        ignore_list.contains req.author_login.toLower = true) →
      (render_POST hmacHex github_secret ignore_list req diff_result).code = 200 ∧
      (render_POST hmacHex github_secret ignore_list req diff_result).fetched_diff =
        false ∧
      ((render_POST hmacHex github_secret ignore_list req diff_result).body =
          "Not actionable" ∨
        (render_POST hmacHex github_secret ignore_list req diff_result).body =
          "Ok")) ∧
    ((render_POST hmacHex github_secret ignore_list req diff_result).code = 401 ∨
      (render_POST hmacHex github_secret ignore_list req diff_result).code = 404 ∨
      (render_POST hmacHex github_secret ignore_list req diff_result).code = 200) := by
  refine ⟨?_, ?_, ?_, ?_⟩
  · intro hsig
    unfold render_POST
    rw [if_pos (by rw [hsig])]
  · intro hsig hev
    unfold render_POST
    rw [if_neg (by rw [hsig]; simp), if_pos (by simpa using hev)]
  · intro hsig hev hskip
    unfold render_POST
    rw [if_neg (by rw [hsig]; simp), if_neg (by simp [hev])]
    rcases hact : actions_to_check.contains req.action with _ | _
    · exact ⟨rfl, rfl, Or.inl rfl⟩
    · have hign : ignore_list.contains req.author_login.toLower = true := by
        rcases hskip with h | h
        · rw [hact] at h
          exact absurd h (by simp)
        · exact h
      rw [if_neg (by simp), if_pos hign]
      exact ⟨rfl, rfl, Or.inr rfl⟩
  · unfold render_POST
    by_cases h1 : compare_secret hmacHex github_secret req.x_hub_signature req.payload =
        false
    · rw [if_pos h1]
      exact Or.inl rfl
    · rw [if_neg h1]
      by_cases h2 : (req.x_github_event != some "pull_request") = true
      · rw [if_pos h2]
        exact Or.inr (Or.inl rfl)
      · rw [if_neg h2]
        by_cases h3 : (!actions_to_check.contains req.action) = true
        · rw [if_pos h3]
          exact Or.inr (Or.inr rfl)
        · rw [if_neg h3]
          by_cases h4 : ignore_list.contains req.author_login.toLower = true
          · rw [if_pos h4]
            exact Or.inr (Or.inr rfl)
          · rw [if_neg h4]
            exact Or.inr (Or.inr rfl)

/-- Witness for C8: a validly signed pull-request event whose action is
`closed` gets a 200 skip response with no diff fetch. -/
theorem render_POST_gates_witness :
    (render_POST hmacHexSample [0] ["spambot"]
      { x_hub_signature := some (sha1Tag ++ ['a']),
        x_github_event := some "pull_request", payload := [],
        action := "closed", author_login := "someone" } none).code = 200 ∧
    (render_POST hmacHexSample [0] ["spambot"]
      { x_hub_signature := some (sha1Tag ++ ['a']),
        x_github_event := some "pull_request", payload := [],
        action := "closed", author_login := "someone" } none).fetched_diff = false ∧
    ((render_POST hmacHexSample [0] ["spambot"]
      { x_hub_signature := some (sha1Tag ++ ['a']),
        x_github_event := some "pull_request", payload := [],
        action := "closed", author_login := "someone" } none).body =
        "Not actionable" ∨
     (render_POST hmacHexSample [0] ["spambot"]
      { x_hub_signature := some (sha1Tag ++ ['a']),
        x_github_event := some "pull_request", payload := [],
        action := "closed", author_login := "someone" } none).body = "Ok") :=
  (render_POST_gates hmacHexSample [0] ["spambot"]
    { x_hub_signature := some (sha1Tag ++ ['a']),
      x_github_event := some "pull_request", payload := [],
      action := "closed", author_login := "someone" } none).2.2.1
    (by decide) rfl (Or.inl (by decide))
